import Mathlib

/-!
Verification of the CSG cell subsystem (`src/cell.cpp`): region tokenizer,
infix-to-RPN compiler, containment evaluators, distance-to-boundary, and the
administrative C-API (`openmc_cell_get_fill`, `openmc_cell_set_fill`,
`openmc_cell_set_temperature`).

Machine integers are modelled as `Int`/`Nat` with explicit wraparound where
the source relies on it (the `size_t` subtraction in `tokenize`'s second
pass).  `double` values that only flow through comparisons and exact
arithmetic are modelled as `ℚ`.
-/

namespace OpenMCCell

/-- Modelled from the spec: operator sentinel codes (the header defining them
is not under `src/`).  The spec requires every code to be strictly greater
than every legal surface-reference magnitude with
`UNION < INTERSECTION < COMPLEMENT` below the parentheses; the code in
`src/cell.cpp` additionally relies on `OP_RIGHT_PAREN ≤ OP_LEFT_PAREN`
(`op >= OP_RIGHT_PAREN` detects a parenthesis, `token < OP_RIGHT_PAREN`
detects a regular operator).  The values are the `int32_t` maxima used by
the implementation. -/
def OP_LEFT_PAREN : Int := 2147483647

/-- Modelled from the spec: right parenthesis operator code. -/
def OP_RIGHT_PAREN : Int := 2147483646

/-- Modelled from the spec: complement operator code. -/
def OP_COMPLEMENT : Int := 2147483645

/-- Modelled from the spec: intersection operator code. -/
def OP_INTERSECTION : Int := 2147483644

/-- Modelled from the spec: union operator code. -/
def OP_UNION : Int := 2147483643

/-- Outcomes of `tokenize` other than a token list: `invalidChar` models the
`fatal_error` on an illegal character; `stoiInvalid`/`stoiRange` model the
exceptions `std::stoi` throws on a bare sign or an out-of-`int`-range
literal; `oobRead` marks an out-of-bounds vector access in the
implicit-intersection loop; `outOfFuel` is an artifact of the fuelled loop
model and is proved unreachable. -/
inductive TokErr where
  | invalidChar : TokErr
  | stoiInvalid : TokErr
  | stoiRange : TokErr
  | oobRead : TokErr
  | outOfFuel : TokErr
deriving DecidableEq, Repr

/-- Longest digit run at the front of a character list, mirroring the
`while (j < size && isdigit(s[j])) j++` scan in `tokenize`. -/
def takeDigits : List Char → List Char × List Char
  | [] => ([], [])
  | c :: cs =>
    if c.isDigit then
      let p := takeDigits cs
      (c :: p.1, p.2)
    else ([], c :: cs)

/-- Decimal value of a digit string. -/
def digitsToNat (ds : List Char) : Nat :=
  ds.foldl (fun acc c => 10 * acc + (c.toNat - 48)) 0

/-- Model of `std::stoi` as applied by `tokenize`: an optional sign followed
by decimal digits, failing on a bare sign (`std::invalid_argument`) or a
value outside `int32_t` range (`std::out_of_range`). -/
def stoi (cs : List Char) : Except TokErr Int :=
  match cs with
  | '-' :: ds =>
    if ds.isEmpty then .error .stoiInvalid
    else if (digitsToNat ds : Int) ≤ 2147483648 then .ok (-(digitsToNat ds : Int))
    else .error .stoiRange
  | '+' :: ds =>
    if ds.isEmpty then .error .stoiInvalid
    else if (digitsToNat ds : Int) ≤ 2147483647 then .ok (digitsToNat ds : Int)
    else .error .stoiRange
  | ds =>
    if ds.isEmpty then .error .stoiInvalid
    else if (digitsToNat ds : Int) ≤ 2147483647 then .ok (digitsToNat ds : Int)
    else .error .stoiRange

theorem takeDigits_rest_length (cs : List Char) : (takeDigits cs).2.length ≤ cs.length := by
  induction cs with
  | nil => simp [takeDigits]
  | cons c cs ih =>
    simp only [takeDigits]
    split
    · simpa using Nat.le_succ_of_le ih
    · simp

/-- First pass of `tokenize`: scan halfspace literals and the four symbolic
operators, skipping whitespace. -/
def scan : List Char → Except TokErr (List Int)
  | [] => .ok []
  | c :: cs =>
    if c = '(' then (List.cons OP_LEFT_PAREN) <$> scan cs
    else if c = ')' then (List.cons OP_RIGHT_PAREN) <$> scan cs
    else if c = '|' then (List.cons OP_UNION) <$> scan cs
    else if c = '~' then (List.cons OP_COMPLEMENT) <$> scan cs
    else if c = '-' ∨ c = '+' ∨ c.isDigit then
      match stoi (c :: (takeDigits cs).1) with
      | .error e => .error e
      | .ok v => (List.cons v) <$> scan (takeDigits cs).2
    else if c.isWhitespace then scan cs
    else .error .invalidChar
termination_by cs => cs.length
decreasing_by
  all_goals simp
  all_goals exact Nat.lt_succ_of_le (takeDigits_rest_length cs)

/-- Left compatibility for implicit intersection:
`tokens[i] < OP_UNION || tokens[i] == OP_RIGHT_PAREN`. -/
def leftCompat (t : Int) : Bool := t < OP_UNION || t == OP_RIGHT_PAREN

/-- Right compatibility for implicit intersection:
`tokens[i+1] < OP_UNION || tokens[i+1] == OP_LEFT_PAREN || tokens[i+1] == OP_COMPLEMENT`. -/
def rightCompat (t : Int) : Bool := t < OP_UNION || t == OP_LEFT_PAREN || t == OP_COMPLEMENT

/-- The value of `tokens.size() - 1` computed in `size_t` arithmetic: for an
empty vector the subtraction wraps around to `SIZE_MAX`. -/
def sizeSub1 (n : Nat) : Nat := if n = 0 then 2 ^ 64 - 1 else n - 1

/-- The effect of `tokens.insert(tokens.begin() + i, v)`. -/
def insertAt : Nat → Int → List Int → List Int
  | 0, v, l => v :: l
  | _ + 1, v, [] => [v]
  | n + 1, v, x :: xs => x :: insertAt n v xs

/-- Second pass of `tokenize`, modelled at the index level: the loop
`while (i < tokens.size() - 1)` reading `tokens[i]` and `tokens[i+1]` and
inserting `OP_INTERSECTION` at `i+1` when the pair is compatible.  An access
outside the current vector is reported as `oobRead`; the fuel is an artifact
of the model, proved sufficient below. -/
def insLoop : Nat → List Int → Nat → Except TokErr (List Int)
  | 0, _, _ => .error .outOfFuel
  | fuel + 1, tokens, i =>
    if i < sizeSub1 tokens.length then
      match tokens.get? i, tokens.get? (i + 1) with
      | some a, some b =>
        insLoop fuel
          (if leftCompat a && rightCompat b then insertAt (i + 1) OP_INTERSECTION tokens
           else tokens) (i + 1)
      | _, _ => .error .oobRead
    else .ok tokens

/-- Structural description of the implicit-intersection pass: insert
`OP_INTERSECTION` between adjacent tokens exactly when the left one is
left-compatible and the right one is right-compatible. -/
def insertStructural : List Int → List Int
  | [] => []
  | [t] => [t]
  | a :: b :: rest =>
    if leftCompat a && rightCompat b then a :: OP_INTERSECTION :: insertStructural (b :: rest)
    else a :: insertStructural (b :: rest)

/-- `tokenize` from `src/cell.cpp`: empty input short-circuits to the empty
token list; otherwise the scanning pass runs, then the implicit-intersection
insertion loop. -/
def tokenize (region_spec : String) : Except TokErr (List Int) :=
  if region_spec = "" then .ok []
  else
    match scan region_spec.toList with
    | .error e => .error e
    | .ok tokens => insLoop (2 * tokens.length + 1) tokens 0

/-- Errors raised by cell construction.  `fatal_error` messages are modelled
structurally; `mismatchedParens` carries the owning cell's id, mirroring
"Mismatched parentheses in region specification for cell <id>". -/
inductive CellError where
  | mismatchedParens : Int → CellError
deriving DecidableEq, Repr

/-- The operator-popping loop run by `generate_rpn` when a regular operator
(union, intersection, complement) arrives: while the top of the stack is an
operator `op` with `op < OP_RIGHT_PAREN` and the precedence test holds, move
`op` to the output.  The stack is a list with its head as `stack.back()`. -/
def binPop (token : Int) : List Int → List Int → List Int × List Int
  | rpn, [] => (rpn, [])
  | rpn, op :: rest =>
    if op < OP_RIGHT_PAREN ∧
        ((token = OP_COMPLEMENT ∧ token < op) ∨ (token ≠ OP_COMPLEMENT ∧ token ≤ op)) then
      binPop token (rpn ++ [op]) rest
    else (rpn, op :: rest)

/-- The loop run by `generate_rpn` on a right parenthesis: move operators
from the stack to the output until a left parenthesis is reached and
discarded; an exhausted stack means mismatched parentheses. -/
def rparenPop (cell_id : Int) : List Int → List Int → Except CellError (List Int × List Int)
  | _, [] => .error (.mismatchedParens cell_id)
  | rpn, op :: rest =>
    if op = OP_LEFT_PAREN then .ok (rpn, rest)
    else rparenPop cell_id (rpn ++ [op]) rest

/-- The end-of-input loop of `generate_rpn`: pop the remaining stack to the
output, failing if a parenthesis (`op >= OP_RIGHT_PAREN`) remains. -/
def finalPop (cell_id : Int) : List Int → List Int → Except CellError (List Int)
  | rpn, [] => .ok rpn
  | rpn, op :: rest =>
    if op ≥ OP_RIGHT_PAREN then .error (.mismatchedParens cell_id)
    else finalPop cell_id (rpn ++ [op]) rest

/-- Main token loop of `generate_rpn` carrying the output queue and the
operator stack. -/
def rpnLoop (cell_id : Int) : List Int → List Int → List Int → Except CellError (List Int)
  | [], rpn, stack => finalPop cell_id rpn stack
  | token :: rest, rpn, stack =>
    if token < OP_UNION then rpnLoop cell_id rest (rpn ++ [token]) stack
    else if token < OP_RIGHT_PAREN then
      let p := binPop token rpn stack
      rpnLoop cell_id rest p.1 (token :: p.2)
    else if token = OP_LEFT_PAREN then rpnLoop cell_id rest rpn (token :: stack)
    else
      match rparenPop cell_id rpn stack with
      | .error e => .error e
      | .ok p => rpnLoop cell_id rest p.1 p.2

/-- `generate_rpn` from `src/cell.cpp`: shunting-yard conversion of the infix
token sequence to postfix for the cell identified by `cell_id`. -/
def generate_rpn (cell_id : Int) (infx : List Int) : Except CellError (List Int) :=
  rpnLoop cell_id infx [] []

/-- Parenthesis-balance scan of a token sequence, classifying tokens exactly
as `generate_rpn` does: operands and regular operators are ignored, a left
parenthesis opens a group, anything else (`token ≥ OP_RIGHT_PAREN` and not
`OP_LEFT_PAREN`) closes one.  `false` marks an unmatched right parenthesis
or a leftover left parenthesis at end of input. -/
def balancedFrom : Nat → List Int → Bool
  | d, [] => d == 0
  | d, t :: ts =>
    if t < OP_UNION then balancedFrom d ts
    else if t < OP_RIGHT_PAREN then balancedFrom d ts
    else if t = OP_LEFT_PAREN then balancedFrom (d + 1) ts
    else if d == 0 then false else balancedFrom (d - 1) ts

/-- Balance of a whole token sequence. -/
def balancedParens (ts : List Int) : Bool := balancedFrom 0 ts

theorem op_lt_right_ne_left {op : Int} (h : op < OP_RIGHT_PAREN) : op ≠ OP_LEFT_PAREN := by
  intro hEq
  rw [hEq] at h
  norm_num [OP_LEFT_PAREN, OP_RIGHT_PAREN] at h

theorem binPop_count (token : Int) (rpn stack : List Int) :
    ((binPop token rpn stack).2).count OP_LEFT_PAREN = stack.count OP_LEFT_PAREN := by
  induction stack generalizing rpn with
  | nil => simp [binPop]
  | cons op rest ih =>
    simp only [binPop]
    by_cases h : op < OP_RIGHT_PAREN ∧
        ((token = OP_COMPLEMENT ∧ token < op) ∨ (token ≠ OP_COMPLEMENT ∧ token ≤ op))
    · rw [if_pos h, ih]
      simp [List.count_cons, op_lt_right_ne_left h.1]
    · rw [if_neg h]

theorem rparenPop_count_zero (cell_id : Int) (rpn stack : List Int)
    (h : stack.count OP_LEFT_PAREN = 0) :
    rparenPop cell_id rpn stack = .error (.mismatchedParens cell_id) := by
  induction stack generalizing rpn with
  | nil => simp [rparenPop]
  | cons op rest ih =>
    simp only [List.count_cons, beq_iff_eq] at h
    have hop : ¬(op = OP_LEFT_PAREN) := by
      intro hEq
      simp [hEq] at h
    simp only [rparenPop, if_neg hop]
    exact ih _ (by omega)

theorem rparenPop_count_pos (cell_id : Int) (rpn stack : List Int)
    (h : 0 < stack.count OP_LEFT_PAREN) :
    ∃ p : List Int × List Int, rparenPop cell_id rpn stack = .ok p ∧
      p.2.count OP_LEFT_PAREN = stack.count OP_LEFT_PAREN - 1 := by
  induction stack generalizing rpn with
  | nil => simp at h
  | cons op rest ih =>
    by_cases hop : op = OP_LEFT_PAREN
    · refine ⟨(rpn, rest), ?_, ?_⟩
      · simp [rparenPop, hop]
      · simp [List.count_cons, hop]
    · simp only [List.count_cons, beq_iff_eq, if_neg hop, add_zero] at h ⊢
      simp only [rparenPop, if_neg hop]
      obtain ⟨p, hp, hc⟩ := ih (rpn ++ [op]) h
      exact ⟨p, hp, by simp [hc, List.count_cons, hop]⟩

theorem finalPop_count_pos (cell_id : Int) (rpn stack : List Int)
    (h : 0 < stack.count OP_LEFT_PAREN) :
    finalPop cell_id rpn stack = .error (.mismatchedParens cell_id) := by
  induction stack generalizing rpn with
  | nil => simp at h
  | cons op rest ih =>
    by_cases hge : op ≥ OP_RIGHT_PAREN
    · simp [finalPop, hge]
    · have hop : ¬(op = OP_LEFT_PAREN) := op_lt_right_ne_left (by omega)
      simp only [finalPop, if_neg hge]
      simp only [List.count_cons, beq_iff_eq, if_neg hop, add_zero] at h
      exact ih _ h

theorem rpnLoop_unbalanced (cell_id : Int) (ts : List Int) :
    ∀ rpn stack : List Int, balancedFrom (stack.count OP_LEFT_PAREN) ts = false →
      rpnLoop cell_id ts rpn stack = .error (.mismatchedParens cell_id) := by
  induction ts with
  | nil =>
    intro rpn stack h
    simp only [balancedFrom, beq_eq_false_iff_ne, ne_eq] at h
    exact finalPop_count_pos cell_id rpn stack (by omega)
  | cons t rest ih =>
    intro rpn stack h
    by_cases h1 : t < OP_UNION
    · simp only [balancedFrom, if_pos h1] at h
      simp only [rpnLoop, if_pos h1]
      exact ih _ _ h
    · by_cases h2 : t < OP_RIGHT_PAREN
      · simp only [balancedFrom, if_neg h1, if_pos h2] at h
        simp only [rpnLoop, if_neg h1, if_pos h2]
        refine ih _ _ ?_
        rw [List.count_cons, binPop_count]
        simp [beq_iff_eq, op_lt_right_ne_left h2, h]
      · by_cases h3 : t = OP_LEFT_PAREN
        · simp only [balancedFrom, if_neg h1, if_neg h2, if_pos h3] at h
          simp only [rpnLoop, if_neg h1, if_neg h2, if_pos h3]
          refine ih _ _ ?_
          simpa [List.count_cons, h3] using h
        · simp only [balancedFrom, if_neg h1, if_neg h2, if_neg h3] at h
          simp only [rpnLoop, if_neg h1, if_neg h2, if_neg h3]
          by_cases hz : stack.count OP_LEFT_PAREN = 0
          · rw [rparenPop_count_zero cell_id rpn stack hz]
          · obtain ⟨p, hp, hc⟩ := rparenPop_count_pos cell_id rpn stack (by omega)
            rw [hp]
            refine ih _ _ ?_
            rw [hc]
            simpa [hz] using h

/-- C1: for every region-spec token sequence whose parentheses do not balance
(an unmatched right parenthesis or a leftover left parenthesis at end of
input), `generate_rpn` fails with a `mismatchedParens` error carrying the
owning cell's id; in particular the tokenized region `"((1"` for cell id 6
fails this way. -/
theorem C1_mismatched_parens :
    (∀ (cell_id : Int) (infx : List Int), balancedParens infx = false →
      generate_rpn cell_id infx = .error (.mismatchedParens cell_id)) ∧
    tokenize "((1" = .ok [OP_LEFT_PAREN, OP_LEFT_PAREN, 1] ∧
    generate_rpn 6 [OP_LEFT_PAREN, OP_LEFT_PAREN, 1] = .error (.mismatchedParens 6) := by
  refine ⟨fun cell_id infx h => rpnLoop_unbalanced cell_id infx [] []
    (by simpa [balancedParens] using h), ?_, ?_⟩
  · simp [tokenize, scan, takeDigits, stoi, digitsToNat, insLoop, sizeSub1, leftCompat,
      rightCompat, insertAt, OP_LEFT_PAREN, OP_RIGHT_PAREN, OP_COMPLEMENT, OP_INTERSECTION,
      OP_UNION]
  · simp [generate_rpn, rpnLoop, binPop, rparenPop, finalPop, OP_LEFT_PAREN, OP_RIGHT_PAREN,
      OP_COMPLEMENT, OP_INTERSECTION, OP_UNION]

/-- Witness for C1: the unbalanced region of cell 6 concretely produces the
`mismatchedParens` error naming cell 6. -/
theorem C1_mismatched_parens_witness :
    balancedParens [OP_LEFT_PAREN, OP_LEFT_PAREN, 1] = false ∧
    generate_rpn 6 [OP_LEFT_PAREN, OP_LEFT_PAREN, 1] = .error (.mismatchedParens 6) :=
  ⟨by simp [balancedParens, balancedFrom, OP_LEFT_PAREN, OP_RIGHT_PAREN, OP_UNION],
   C1_mismatched_parens.1 6 [OP_LEFT_PAREN, OP_LEFT_PAREN, 1]
     (by simp [balancedParens, balancedFrom, OP_LEFT_PAREN, OP_RIGHT_PAREN, OP_UNION])⟩

theorem get?_append_len (pre : List Int) (x : Int) (l : List Int) :
    (pre ++ x :: l).get? pre.length = some x := by
  induction pre with
  | nil => rfl
  | cons p ps ih => simpa using ih

theorem insertAt_append_len1 (pre : List Int) (a v : Int) (l : List Int) :
    insertAt (pre.length + 1) v (pre ++ a :: l) = pre ++ a :: v :: l := by
  induction pre with
  | nil => rfl
  | cons p ps ih => simpa [insertAt] using ih

theorem leftCompat_intersection : leftCompat OP_INTERSECTION = false := by
  simp [leftCompat, OP_INTERSECTION, OP_UNION, OP_RIGHT_PAREN]

/-- The index-level insertion loop, run from position `pre.length` on a
vector with at least one remaining token, agrees with the structural
description `insertStructural`. -/
theorem insLoop_eq_structural (rest : List Int) :
    ∀ (pre : List Int) (a : Int) (fuel : Nat), 2 * rest.length + 1 ≤ fuel →
      insLoop fuel (pre ++ a :: rest) pre.length = .ok (pre ++ insertStructural (a :: rest)) := by
  induction rest with
  | nil =>
    intro pre a fuel hf
    obtain ⟨fuel, rfl⟩ : ∃ f, fuel = f + 1 := ⟨fuel - 1, by omega⟩
    have hc : ¬(pre.length < sizeSub1 (pre ++ [a]).length) := by
      simp [sizeSub1, List.length_append]
    simp only [insLoop, if_neg hc, insertStructural]
  | cons b rest' ih =>
    intro pre a fuel hf
    simp only [List.length_cons] at hf
    obtain ⟨fuel, rfl⟩ : ∃ f, fuel = f + 1 := ⟨fuel - 1, by omega⟩
    have hc : pre.length < sizeSub1 (pre ++ a :: b :: rest').length := by
      simp only [sizeSub1, List.length_append, List.length_cons]
      split
      · omega
      · omega
    have hga : (pre ++ a :: b :: rest').get? pre.length = some a := get?_append_len pre a _
    have hgb : (pre ++ a :: b :: rest').get? (pre.length + 1) = some b := by
      have := get?_append_len (pre ++ [a]) b rest'
      simpa using this
    simp only [insLoop, if_pos hc, hga, hgb]
    by_cases hcompat : (leftCompat a && rightCompat b) = true
    · rw [if_pos hcompat]
      have hins : insertAt (pre.length + 1) OP_INTERSECTION (pre ++ a :: b :: rest') =
          pre ++ a :: OP_INTERSECTION :: b :: rest' := insertAt_append_len1 pre a _ _
      rw [hins]
      obtain ⟨fuel, rfl⟩ : ∃ f, fuel = f + 1 := ⟨fuel - 1, by omega⟩
      have hc2 : pre.length + 1 < sizeSub1 (pre ++ a :: OP_INTERSECTION :: b :: rest').length := by
        simp only [sizeSub1, List.length_append, List.length_cons]
        split
        · omega
        · omega
      have hga2 : (pre ++ a :: OP_INTERSECTION :: b :: rest').get? (pre.length + 1) =
          some OP_INTERSECTION := by
        have := get?_append_len (pre ++ [a]) OP_INTERSECTION (b :: rest')
        simpa using this
      have hgb2 : (pre ++ a :: OP_INTERSECTION :: b :: rest').get? (pre.length + 2) =
          some b := by
        have := get?_append_len (pre ++ [a, OP_INTERSECTION]) b rest'
        simpa [add_assoc] using this
      simp only [insLoop, if_pos hc2, hga2, hgb2, leftCompat_intersection, Bool.false_and,
        Bool.false_eq_true, if_neg, ite_false]
      have := ih (pre ++ [a, OP_INTERSECTION]) b fuel (by omega)
      simp only [List.length_append, List.length_cons, List.length_nil, List.append_assoc,
        List.cons_append, List.nil_append] at this
      rw [show pre.length + 2 = pre.length + (1 + 1) by omega] at this
      rw [this]
      simp [insertStructural, hcompat]
    · rw [if_neg hcompat]
      have := ih (pre ++ [a]) b fuel (by omega)
      simp only [List.length_append, List.length_cons, List.length_nil, List.append_assoc,
        List.cons_append, List.nil_append] at this
      rw [this]
      simp only [insertStructural]
      rw [if_neg hcompat]

theorem digitChar_isDigit : ∀ m, m < 10 → (Nat.digitChar m).isDigit = true := by decide

theorem digitChar_toNat : ∀ m, m < 10 → (Nat.digitChar m).toNat - 48 = m := by decide

/-- Decimal digit string of a natural number (most significant first). -/
def natDigits (n : Nat) : List Char :=
  if _h : n < 10 then [Nat.digitChar n]
  else natDigits (n / 10) ++ [Nat.digitChar (n % 10)]
termination_by n
decreasing_by exact Nat.div_lt_self (by omega) (by omega)

theorem natDigits_ne_nil (n : Nat) : natDigits n ≠ [] := by
  rw [natDigits]
  split <;> simp

theorem natDigits_all_digit (n : Nat) : ∀ c ∈ natDigits n, c.isDigit = true := by
  induction n using Nat.strong_induction_on with
  | _ n ih =>
    rw [natDigits]
    split
    · next h =>
      intro c hc
      simp only [List.mem_singleton] at hc
      subst hc
      exact digitChar_isDigit n h
    · next h =>
      intro c hc
      simp only [List.mem_append, List.mem_singleton] at hc
      rcases hc with hc | hc
      · exact ih (n / 10) (Nat.div_lt_self (by omega) (by omega)) c hc
      · subst hc
        exact digitChar_isDigit (n % 10) (Nat.mod_lt _ (by omega))

theorem digitsToNat_append (ds : List Char) (c : Char) :
    digitsToNat (ds ++ [c]) = 10 * digitsToNat ds + (c.toNat - 48) := by
  simp [digitsToNat, List.foldl_append]

theorem digitsToNat_natDigits (n : Nat) : digitsToNat (natDigits n) = n := by
  induction n using Nat.strong_induction_on with
  | _ n ih =>
    rw [natDigits]
    split
    · next h =>
      have := digitChar_toNat n h
      simp [digitsToNat]
      omega
    · next h =>
      rw [digitsToNat_append, ih (n / 10) (Nat.div_lt_self (by omega) (by omega)),
        digitChar_toNat (n % 10) (Nat.mod_lt _ (by omega))]
      omega

theorem takeDigits_digits (ds rest : List Char) (hds : ∀ c ∈ ds, c.isDigit = true)
    (hrest : ∀ c ∈ rest.head?, c.isDigit = false) :
    takeDigits (ds ++ rest) = (ds, rest) := by
  induction ds with
  | nil =>
    cases rest with
    | nil => simp [takeDigits]
    | cons c r =>
      have := hrest c (by simp)
      simp [takeDigits, this]
  | cons d ds ih =>
    have hd : d.isDigit = true := hds d (by simp)
    simp only [List.cons_append, takeDigits, hd, if_true, List.append_eq]
    rw [ih (fun c hc => hds c (by simp [hc]))]

theorem stoi_digits (l : List Char) (hne : l ≠ []) (hd : ∀ c ∈ l, c.isDigit = true) :
    stoi l = if (digitsToNat l : Int) ≤ 2147483647 then .ok ((digitsToNat l : Nat) : Int)
             else .error .stoiRange := by
  rw [stoi.eq_def]
  split
  · exact absurd (hd '-' (by simp)) (by decide)
  · exact absurd (hd '+' (by simp)) (by decide)
  · rw [if_neg (by simpa [List.isEmpty_iff] using hne)]

/-- Canonical decimal rendering of a signed integer literal. -/
def renderInt (s : Int) : List Char :=
  if s < 0 then '-' :: natDigits s.natAbs else natDigits s.natAbs

/-- Whitespace-separated rendering of a list of signed integers. -/
def renderChars : List Int → List Char
  | [] => []
  | [s] => renderInt s
  | s :: rest => renderInt s ++ ' ' :: renderChars rest

/-- String form of `renderChars`. -/
def renderInts (l : List Int) : String := String.mk (renderChars l)

theorem scan_renderInt (s : Int) (rest : List Char) (hlo : -2147483648 ≤ s)
    (hhi : s ≤ 2147483647) (hrest : ∀ c ∈ rest.head?, c.isDigit = false) :
    scan (renderInt s ++ rest) = (List.cons s) <$> scan rest := by
  by_cases hneg : s < 0
  · simp only [renderInt, if_pos hneg, List.cons_append, scan]
    simp only [Char.reduceEq, reduceIte, true_or, if_true]
    rw [takeDigits_digits (natDigits s.natAbs) rest (natDigits_all_digit _) hrest]
    dsimp only
    simp only [stoi]
    rw [if_neg (by simpa [List.isEmpty_iff] using natDigits_ne_nil s.natAbs),
      digitsToNat_natDigits]
    rw [if_pos (show ((s.natAbs : Nat) : Int) ≤ 2147483648 by omega)]
    have hs : -((s.natAbs : Nat) : Int) = s := by omega
    rw [hs]
  · obtain ⟨c, ds, hcd⟩ := List.exists_cons_of_ne_nil (natDigits_ne_nil s.natAbs)
    have hc : c.isDigit = true := natDigits_all_digit _ c (by rw [hcd]; simp)
    have hds : ∀ d ∈ ds, d.isDigit = true :=
      fun d hd => natDigits_all_digit _ d (by rw [hcd]; simp [hd])
    simp only [renderInt, if_neg hneg, hcd, List.cons_append, scan]
    rw [if_neg (show ¬(c = '(') from fun h => absurd (h ▸ hc) (by decide)),
      if_neg (show ¬(c = ')') from fun h => absurd (h ▸ hc) (by decide)),
      if_neg (show ¬(c = '|') from fun h => absurd (h ▸ hc) (by decide)),
      if_neg (show ¬(c = '~') from fun h => absurd (h ▸ hc) (by decide)),
      if_pos (show c = '-' ∨ c = '+' ∨ c.isDigit = true from Or.inr (Or.inr hc))]
    rw [takeDigits_digits ds rest hds hrest]
    dsimp only
    rw [← hcd, stoi_digits _ (natDigits_ne_nil s.natAbs) (natDigits_all_digit _),
      digitsToNat_natDigits]
    rw [if_pos (show ((s.natAbs : Nat) : Int) ≤ 2147483647 by omega)]
    have hs : ((s.natAbs : Nat) : Int) = s := by omega
    rw [hs]

theorem scan_space_cons (cs : List Char) : scan (' ' :: cs) = scan cs := by
  simp [scan]

theorem scan_renderChars (l : List Int) (hne : l ≠ [])
    (hb : ∀ s ∈ l, -2147483648 ≤ s ∧ s ≤ 2147483647) :
    scan (renderChars l) = .ok l := by
  induction l with
  | nil => exact absurd rfl hne
  | cons s rest ih =>
    cases rest with
    | nil =>
      have := scan_renderInt s [] (hb s (by simp)).1 (hb s (by simp)).2 (by simp)
      simpa [renderChars, scan] using this
    | cons t r =>
      have hstep := scan_renderInt s (' ' :: renderChars (t :: r)) (hb s (by simp)).1
        (hb s (by simp)).2 (by simp)
      rw [show renderChars (s :: t :: r) = renderInt s ++ ' ' :: renderChars (t :: r) from rfl,
        hstep, scan_space_cons, ih (by simp) (fun x hx => hb x (by simp [hx]))]
      rfl

theorem renderChars_ne_nil (l : List Int) (hne : l ≠ []) : renderChars l ≠ [] := by
  cases l with
  | nil => exact absurd rfl hne
  | cons s rest =>
    cases rest with
    | nil =>
      show renderInt s ≠ []
      rw [renderInt]
      split
      · simp
      · exact natDigits_ne_nil _
    | cons t r =>
      show renderInt s ++ ' ' :: renderChars (t :: r) ≠ []
      simp

theorem insertStructural_operands (l : List Int) (h : ∀ s ∈ l, s < OP_UNION) :
    insertStructural l = List.intersperse OP_INTERSECTION l := by
  induction l with
  | nil => rfl
  | cons a rest ih =>
    cases rest with
    | nil => rfl
    | cons b r =>
      have ha : leftCompat a = true := by
        simp only [leftCompat, Bool.or_eq_true, decide_eq_true_eq]
        exact Or.inl (h a (by simp))
      have hbh : rightCompat b = true := by
        simp only [rightCompat, Bool.or_eq_true, decide_eq_true_eq]
        exact Or.inl (Or.inl (h b (by simp)))
      rw [insertStructural, if_pos (by rw [ha, hbh]; rfl),
        ih (fun x hx => h x (by simp [hx]))]
      rfl

/-- C8: tokenizing the whitespace-separated rendering of nonzero signed
integers (each a legal surface reference, hence below `OP_UNION` and within
`int` range) yields exactly the operands interleaved with `OP_INTERSECTION`;
and in general the second pass of `tokenize` inserts `OP_INTERSECTION`
between adjacent tokens exactly when the left one is left-compatible
(operand or `OP_RIGHT_PAREN`) and the right one is right-compatible
(operand, `OP_LEFT_PAREN`, or `OP_COMPLEMENT`). -/
theorem C8_tokenize_operator_free :
    (∀ l : List Int, l ≠ [] → (∀ s ∈ l, s ≠ 0 ∧ -2147483648 ≤ s ∧ s < OP_UNION) →
      tokenize (renderInts l) = .ok (List.intersperse OP_INTERSECTION l)) ∧
    (∀ toks : List Int, toks ≠ [] → ∀ fuel : Nat, 2 * toks.length - 1 ≤ fuel →
      insLoop fuel toks 0 = .ok (insertStructural toks)) ∧
    (∀ (a b : Int) (rest : List Int), (leftCompat a && rightCompat b) = true →
      insertStructural (a :: b :: rest) = a :: OP_INTERSECTION :: insertStructural (b :: rest)) ∧
    (∀ (a b : Int) (rest : List Int), (leftCompat a && rightCompat b) = false →
      insertStructural (a :: b :: rest) = a :: insertStructural (b :: rest)) := by
  refine ⟨?_, ?_, ?_, ?_⟩
  · intro l hne hb
    have hb' : ∀ s ∈ l, -2147483648 ≤ s ∧ s ≤ 2147483647 := by
      intro s hs
      have := hb s hs
      simp only [OP_UNION] at this
      omega
    have hnil : renderInts l ≠ "" := by
      intro h
      exact renderChars_ne_nil l hne (by simpa using congrArg String.data h)
    rw [tokenize, if_neg hnil]
    have htl : (renderInts l).toList = renderChars l := rfl
    rw [htl, scan_renderChars l hne hb']
    dsimp only
    obtain ⟨a, rest, rfl⟩ := List.exists_cons_of_ne_nil hne
    have hloop := insLoop_eq_structural rest [] a (2 * (a :: rest).length + 1)
      (by simp only [List.length_cons]; omega)
    simp only [List.nil_append, List.length_nil] at hloop
    rw [hloop, insertStructural_operands _ (fun s hs => (hb s hs).2.2)]
  · intro toks hne fuel hf
    obtain ⟨a, rest, rfl⟩ := List.exists_cons_of_ne_nil hne
    have := insLoop_eq_structural rest [] a fuel
      (by simp only [List.length_cons] at hf; omega)
    simpa using this
  · intro a b rest h
    rw [insertStructural, if_pos h]
  · intro a b rest h
    rw [insertStructural, if_neg (by simp [h])]

/-- Witness for C8: the two-operand list `[3, -4]` renders to `"3 -4"` and
tokenizes with a single implicit intersection. -/
theorem C8_tokenize_operator_free_witness :
    tokenize (renderInts [3, -4]) = .ok (List.intersperse OP_INTERSECTION [3, -4]) :=
  C8_tokenize_operator_free.1 [3, -4] (by simp) (by decide)

/-- C10: evaluation of the code at the failing input.  On a nonempty region
specification consisting only of whitespace the scanning pass leaves the
token vector empty, `tokens.size() - 1` wraps around to `SIZE_MAX` in
`size_t` arithmetic, the insertion loop is entered, and `tokens[0]` is read
out of bounds. -/
theorem C10_whitespace_oob : tokenize " " = .error .oobRead := by
  simp [tokenize, scan, insLoop, sizeSub1]

/-- Modelled from the spec: the process-wide floating-point precision
threshold `ε_fp` (`FP_PRECISION`); its defining header is not under `src/`.
The value used here is the implementation's `1e-14`; every theorem below
needs only `0 < FP_PRECISION < 1`. -/
def FP_PRECISION : ℚ := 1 / 10 ^ 14

/-- Modelled from the spec: the `INFTY` initial distance ("min_dist = +∞");
its defining header is not under `src/`.  The implementation uses the
largest finite `double`, `(2 - 2^-52)·2^1023`. -/
def INFTY : ℚ := 2 ^ 1024 - 2 ^ 971

/-- `std::numeric_limits<int32_t>::max()`, the initial `i_surf`. -/
def INT32_MAX : Int := 2147483647

/-- Interface of the surface library as consumed by the cell subsystem: a
sense test and a distance-to-surface computation taking the coincidence
flag.  Distances are modelled as `ℚ`. -/
structure Surface (Pos Dir : Type) where
  sense : Pos → Dir → Bool
  distance : Pos → Dir → Bool → ℚ

/-- Placeholder surface used for the unchecked `global_surfaces[...]` access;
never consulted on compiled cells, whose operands all reference existing
surfaces. -/
def defaultSurface {Pos Dir : Type} : Surface Pos Dir :=
  ⟨fun _ _ => false, fun _ _ _ => 0⟩

/-- The `Cell` state relevant to the verified operations: identity, fill
kind (`type`), material list, stored `√(kT)` values, fill target, compiled
postfix region and the simple flag. -/
structure Cell where
  id : Int := 0
  type : Int := 0
  material : List Int := []
  sqrtkT : List ℚ := []
  fill : Int := 0
  rpn : List Int := []
  simple : Bool := true
deriving DecidableEq, Repr

instance : Inhabited Cell := ⟨{}⟩

/-- The single-operand decision duplicated verbatim in `contains_simple` and
`contains_complex`: a token equal to `on_surface` is satisfied outright, a
token equal to `-on_surface` is unsatisfied outright, and otherwise the
surface library's `sense` is compared against the operand's sign (note the
off-by-one surface indexing). -/
def operandDecision {Pos Dir : Type} (surfs : List (Surface Pos Dir)) (r : Pos) (u : Dir)
    (on_surface token : Int) : Bool :=
  if token = on_surface then true
  else if -token = on_surface then false
  else ((surfs.getD (token.natAbs - 1) defaultSurface).sense r u) == decide (token > 0)

/-- Loop body of `Cell::contains_simple`: operands are tested with the
three-case rule, returning `false` at the first unsatisfied operand;
non-operand tokens are skipped. -/
def containsSimpleLoop {Pos Dir : Type} (surfs : List (Surface Pos Dir)) (r : Pos) (u : Dir)
    (on_surface : Int) : List Int → Bool
  | [] => true
  | token :: rest =>
    if token < OP_UNION then
      if operandDecision surfs r u on_surface token then
        containsSimpleLoop surfs r u on_surface rest
      else false
    else containsSimpleLoop surfs r u on_surface rest

/-- `Cell::contains_simple` from `src/cell.cpp`. -/
def Cell.contains_simple {Pos Dir : Type} (surfs : List (Surface Pos Dir)) (c : Cell)
    (r : Pos) (u : Dir) (on_surface : Int) : Bool :=
  containsSimpleLoop surfs r u on_surface c.rpn

/-- One step of the boolean stack machine in `Cell::contains_complex`; the
stack is a list with its head at index `i_stack`.  Binary operators combine
the top two entries, complement negates the top in place, and any other
token pushes its operand decision. -/
def complexStep {Pos Dir : Type} (surfs : List (Surface Pos Dir)) (r : Pos) (u : Dir)
    (on_surface : Int) (stack : List Bool) (token : Int) : List Bool :=
  if token = OP_UNION then
    match stack with
    | b :: a :: rest => (a || b) :: rest
    | s => s.tail
  else if token = OP_INTERSECTION then
    match stack with
    | b :: a :: rest => (a && b) :: rest
    | s => s.tail
  else if token = OP_COMPLEMENT then
    match stack with
    | b :: rest => (!b) :: rest
    | [] => []
  else operandDecision surfs r u on_surface token :: stack

/-- `Cell::contains_complex` from `src/cell.cpp`: run the stack machine over
the postfix form; if exactly one boolean remains (`i_stack == 0`) it is the
answer, otherwise (`i_stack` still `-1`, the empty region) the result is
`true`. -/
def Cell.contains_complex {Pos Dir : Type} (surfs : List (Surface Pos Dir)) (c : Cell)
    (r : Pos) (u : Dir) (on_surface : Int) : Bool :=
  match c.rpn.foldl (complexStep surfs r u on_surface) [] with
  | [b] => b
  | _ => true

/-- `Cell::contains` from `src/cell.cpp`: dispatch on the simple flag. -/
def Cell.contains {Pos Dir : Type} (surfs : List (Surface Pos Dir)) (c : Cell)
    (r : Pos) (u : Dir) (on_surface : Int) : Bool :=
  if c.simple then c.contains_simple surfs r u on_surface
  else c.contains_complex surfs r u on_surface

/-- The simple-flag computation in the `Cell` constructor: `simple` is
cleared iff some postfix token is `OP_COMPLEMENT` or `OP_UNION`. -/
def computeSimple (rpn : List Int) : Bool :=
  !(rpn.any (fun t => t == OP_COMPLEMENT || t == OP_UNION))

/-- Modelled from the spec (invariant 5): stack-depth evolution of a postfix
sequence under the complex evaluator, with binary operators requiring two
entries and complement one. -/
def rpnDepth : List Int → Nat → Option Nat
  | [], d => some d
  | t :: ts, d =>
    if t = OP_UNION ∨ t = OP_INTERSECTION then
      if 2 ≤ d then rpnDepth ts (d - 1) else none
    else if t = OP_COMPLEMENT then
      if 1 ≤ d then rpnDepth ts d else none
    else rpnDepth ts (d + 1)

/-- Modelled from the spec (invariant 5): a compiled postfix form is either
empty or evaluates to exactly one stack entry. -/
def wellFormedRPN (ts : List Int) : Bool := ts.isEmpty || rpnDepth ts 0 == some 1

/-- The distance of the surface referenced by an operand token, with the
coincidence flag `token == on_surface` (note the off-by-one indexing). -/
def tokenDistance {Pos Dir : Type} (surfs : List (Surface Pos Dir)) (r : Pos) (u : Dir)
    (on_surface token : Int) : ℚ :=
  (surfs.getD (token.natAbs - 1) defaultSurface).distance r u (decide (token = on_surface))

/-- Loop body of `Cell::distance`: operator tokens are skipped; an operand's
distance displaces the running minimum only when it is smaller and the
relative difference reaches `FP_PRECISION`, in which case `i_surf` becomes
the negated token. -/
def distanceStep {Pos Dir : Type} (surfs : List (Surface Pos Dir)) (r : Pos) (u : Dir)
    (on_surface : Int) (acc : ℚ × Int) (token : Int) : ℚ × Int :=
  if token ≥ OP_UNION then acc
  else
    if tokenDistance surfs r u on_surface token < acc.1 then
      if |tokenDistance surfs r u on_surface token - acc.1| / acc.1 ≥ FP_PRECISION then
        (tokenDistance surfs r u on_surface token, -token)
      else acc
    else acc

/-- `Cell::distance` from `src/cell.cpp`, starting from
`(INFTY, std::numeric_limits<int32_t>::max())`. -/
def Cell.distance {Pos Dir : Type} (surfs : List (Surface Pos Dir)) (c : Cell)
    (r : Pos) (u : Dir) (on_surface : Int) : ℚ × Int :=
  c.rpn.foldl (distanceStep surfs r u on_surface) (INFTY, INT32_MAX)

/-- C2: the on-surface override in the operand decision used by both
containment evaluators.  For a nonzero signed operand `s`: with
`on_surface = s` the operand is satisfied for every surface table (the
sense function is never consulted); with `on_surface = -s` it is
unsatisfied for every surface table; and with `on_surface = 0` every
operand is decided by `sense(r, u)` compared against the operand's sign. -/
theorem C2_on_surface_override :
    ∀ (Pos Dir : Type) (r : Pos) (u : Dir) (s : Int), s ≠ 0 →
      (∀ surfs : List (Surface Pos Dir), operandDecision surfs r u s s = true) ∧
      (∀ surfs : List (Surface Pos Dir), operandDecision surfs r u (-s) s = false) ∧
      (∀ (surfs : List (Surface Pos Dir)) (t : Int), t ≠ 0 →
        operandDecision surfs r u 0 t =
          (((surfs.getD (t.natAbs - 1) defaultSurface).sense r u) == decide (t > 0))) := by
  intro Pos Dir r u s hs
  refine ⟨fun surfs => ?_, fun surfs => ?_, fun surfs t ht => ?_⟩
  · simp [operandDecision]
  · rw [operandDecision, if_neg (by omega), if_pos rfl]
  · rw [operandDecision, if_neg (by omega), if_neg (by omega)]

/-- Witness for C2: with operand 3, `on_surface = 3` decides satisfied and
`on_surface = -3` decides unsatisfied, even on an empty surface table. -/
theorem C2_on_surface_override_witness :
    operandDecision ([] : List (Surface Unit Unit)) () () 3 3 = true ∧
    operandDecision ([] : List (Surface Unit Unit)) () () (-3) 3 = false :=
  ⟨(C2_on_surface_override Unit Unit () () 3 (by decide)).1 [],
   (C2_on_surface_override Unit Unit () () 3 (by decide)).2.1 []⟩

theorem containsSimpleLoop_cons_operand {Pos Dir : Type} (surfs : List (Surface Pos Dir))
    (r : Pos) (u : Dir) (os t : Int) (ts : List Int) (h : t < OP_UNION) :
    containsSimpleLoop surfs r u os (t :: ts) =
      (operandDecision surfs r u os t && containsSimpleLoop surfs r u os ts) := by
  rw [containsSimpleLoop, if_pos h]
  cases hd : operandDecision surfs r u os t <;> simp

theorem rpnDepth_cons_inter (ts : List Int) (d : Nat) (h2 : 2 ≤ d) :
    rpnDepth (OP_INTERSECTION :: ts) d = rpnDepth ts (d - 1) := by
  rw [rpnDepth, if_pos (Or.inr rfl), if_pos h2]

theorem rpnDepth_cons_inter_none (ts : List Int) (d : Nat) (h2 : ¬(2 ≤ d)) :
    rpnDepth (OP_INTERSECTION :: ts) d = none := by
  rw [rpnDepth, if_pos (Or.inr rfl), if_neg h2]

theorem simple_stack_lemma {Pos Dir : Type} (surfs : List (Surface Pos Dir)) (r : Pos)
    (u : Dir) (os : Int) :
    ∀ ts : List Int, (∀ t ∈ ts, t < OP_UNION ∨ t = OP_INTERSECTION) →
      ∀ (stack : List Bool) (n : Nat), rpnDepth ts stack.length = some n →
        (ts.foldl (complexStep surfs r u os) stack).length = n ∧
        (ts.foldl (complexStep surfs r u os) stack).all id =
          (stack.all id && containsSimpleLoop surfs r u os ts) := by
  intro ts
  induction ts with
  | nil =>
    intro _ stack n hd
    simp only [rpnDepth, Option.some.injEq] at hd
    subst hd
    simp [containsSimpleLoop]
  | cons t ts ih =>
    intro hmix stack n hd
    rcases hmix t (by simp) with ht | ht
    · have hne1 : ¬(t = OP_UNION ∨ t = OP_INTERSECTION) := by
        simp only [OP_UNION, OP_INTERSECTION] at ht ⊢
        omega
      have hne2 : ¬(t = OP_COMPLEMENT) := by
        simp only [OP_UNION, OP_COMPLEMENT] at ht ⊢
        omega
      have hne3 : ¬(t = OP_UNION) := fun h => hne1 (Or.inl h)
      have hne4 : ¬(t = OP_INTERSECTION) := fun h => hne1 (Or.inr h)
      simp only [rpnDepth, if_neg hne1, if_neg hne2] at hd
      have hstep : complexStep surfs r u os stack t =
          operandDecision surfs r u os t :: stack := by
        simp only [complexStep]
        rw [if_neg hne3, if_neg hne4, if_neg hne2]
      rw [List.foldl_cons, hstep]
      have hrec := ih (fun x hx => hmix x (by simp [hx]))
        (operandDecision surfs r u os t :: stack) n (by simpa using hd)
      refine ⟨hrec.1, ?_⟩
      rw [hrec.2, containsSimpleLoop_cons_operand surfs r u os t ts ht]
      simp [Bool.and_assoc, Bool.and_comm, Bool.and_left_comm]
    · subst ht
      by_cases h2 : 2 ≤ stack.length
      · rw [rpnDepth_cons_inter ts stack.length h2] at hd
        obtain ⟨b, a, rest, rfl⟩ : ∃ b a rest, stack = b :: a :: rest := by
          match stack, h2 with
          | b :: a :: rest, _ => exact ⟨b, a, rest, rfl⟩
        have hstep : complexStep surfs r u os (b :: a :: rest) OP_INTERSECTION =
            (a && b) :: rest := by
          simp [complexStep, OP_UNION, OP_INTERSECTION]
        rw [List.foldl_cons, hstep]
        have harith : (b :: a :: rest : List Bool).length - 1 = ((a && b) :: rest).length := by
          simp
        rw [harith] at hd
        have hrec := ih (fun x hx => hmix x (by simp [hx])) ((a && b) :: rest) n hd
        refine ⟨hrec.1, ?_⟩
        rw [hrec.2]
        have hloop : containsSimpleLoop surfs r u os (OP_INTERSECTION :: ts) =
            containsSimpleLoop surfs r u os ts := by
          rw [containsSimpleLoop, if_neg (by norm_num [OP_UNION, OP_INTERSECTION])]
        rw [hloop]
        simp [Bool.and_assoc, Bool.and_comm, Bool.and_left_comm]
      · rw [rpnDepth_cons_inter_none ts stack.length h2] at hd
        exact absurd hd (by simp)

/-- C3: the simple flag computed at construction is true iff the postfix
form contains neither `OP_UNION` nor `OP_COMPLEMENT`; and on every such
simple compiled cell (tokens below `OP_RIGHT_PAREN`, stack-balanced postfix
as guaranteed by compilation) the fast evaluator `contains_simple` agrees
with the general stack evaluator `contains_complex` at every point,
direction and on-surface override. -/
theorem C3_simple_flag_correct :
    (∀ rpn : List Int, computeSimple rpn = true ↔ (OP_UNION ∉ rpn ∧ OP_COMPLEMENT ∉ rpn)) ∧
    (∀ (Pos Dir : Type) (surfs : List (Surface Pos Dir)) (c : Cell) (r : Pos) (u : Dir)
        (on_surface : Int), computeSimple c.rpn = true → wellFormedRPN c.rpn = true →
        (∀ t ∈ c.rpn, t < OP_RIGHT_PAREN) →
        c.contains_simple surfs r u on_surface = c.contains_complex surfs r u on_surface) := by
  constructor
  · intro rpn
    simp only [computeSimple, Bool.not_eq_true', List.any_eq_false, Bool.or_eq_true,
      beq_iff_eq, not_or]
    constructor
    · intro h
      exact ⟨fun hu => (h _ hu).2 rfl, fun hc => (h _ hc).1 rfl⟩
    · intro h t ht
      exact ⟨fun he => h.2 (he ▸ ht), fun he => h.1 (he ▸ ht)⟩
  · intro Pos Dir surfs c r u os hsimple hwf hbound
    have hsimple' : ∀ t ∈ c.rpn, ¬(t = OP_COMPLEMENT) ∧ ¬(t = OP_UNION) := by
      simp [computeSimple] at hsimple
      exact hsimple
    have hmix : ∀ t ∈ c.rpn, t < OP_UNION ∨ t = OP_INTERSECTION := by
      intro t ht
      have h1 := hbound t ht
      have h2 := hsimple' t ht
      simp only [OP_UNION, OP_INTERSECTION, OP_COMPLEMENT, OP_RIGHT_PAREN] at h1 h2 ⊢
      omega
    rw [wellFormedRPN] at hwf
    simp only [Bool.or_eq_true, List.isEmpty_iff, beq_iff_eq] at hwf
    rcases hwf with hempty | hdepth
    · rw [Cell.contains_simple, Cell.contains_complex, hempty]
      simp [containsSimpleLoop]
    · have hlem := simple_stack_lemma surfs r u os c.rpn hmix [] 1 (by simpa using hdepth)
      rw [Cell.contains_simple, Cell.contains_complex]
      obtain ⟨hlen, hall⟩ := hlem
      obtain ⟨b, hb⟩ := List.length_eq_one.mp hlen
      rw [hb] at hall ⊢
      simp only [List.all_cons, List.all_nil, Bool.and_true, List.all_nil, Bool.true_and,
        id_eq] at hall
      exact hall.symm

/-- Witness for C3: a concrete simple two-operand cell on which both
evaluators agree. -/
theorem C3_simple_flag_correct_witness :
    Cell.contains_simple [⟨fun _ _ => true, fun _ _ _ => 0⟩, ⟨fun _ _ => false, fun _ _ _ => 0⟩]
      { rpn := [1, 2, OP_INTERSECTION] } () () 0 =
    Cell.contains_complex
      ([⟨fun _ _ => true, fun _ _ _ => 0⟩, ⟨fun _ _ => false, fun _ _ _ => 0⟩] :
        List (Surface Unit Unit))
      { rpn := [1, 2, OP_INTERSECTION] } () () 0 :=
  C3_simple_flag_correct.2 Unit Unit _ { rpn := [1, 2, OP_INTERSECTION] } () () 0
    (by decide) (by decide) (by decide)

theorem FP_PRECISION_pos : 0 < FP_PRECISION := by norm_num [FP_PRECISION]

theorem FP_PRECISION_lt_one : FP_PRECISION < 1 := by norm_num [FP_PRECISION]

theorem INFTY_pos : 0 < INFTY := by
  rw [INFTY]
  positivity

theorem distanceStep_op {Pos Dir : Type} (surfs : List (Surface Pos Dir)) (r : Pos) (u : Dir)
    (os : Int) (acc : ℚ × Int) (t : Int) (h : t ≥ OP_UNION) :
    distanceStep surfs r u os acc t = acc := by
  simp only [distanceStep]
  rw [if_pos h]

theorem distanceStep_accept {Pos Dir : Type} (surfs : List (Surface Pos Dir)) (r : Pos)
    (u : Dir) (os : Int) (acc : ℚ × Int) (t : Int) (h1 : ¬(t ≥ OP_UNION))
    (h2 : tokenDistance surfs r u os t < acc.1)
    (h3 : |tokenDistance surfs r u os t - acc.1| / acc.1 ≥ FP_PRECISION) :
    distanceStep surfs r u os acc t = (tokenDistance surfs r u os t, -t) := by
  simp only [distanceStep]
  rw [if_neg h1, if_pos h2, if_pos h3]

theorem distanceStep_keep_tol {Pos Dir : Type} (surfs : List (Surface Pos Dir)) (r : Pos)
    (u : Dir) (os : Int) (acc : ℚ × Int) (t : Int) (h1 : ¬(t ≥ OP_UNION))
    (h2 : tokenDistance surfs r u os t < acc.1)
    (h3 : ¬(|tokenDistance surfs r u os t - acc.1| / acc.1 ≥ FP_PRECISION)) :
    distanceStep surfs r u os acc t = acc := by
  simp only [distanceStep]
  rw [if_neg h1, if_pos h2, if_neg h3]

theorem distanceStep_keep_ge {Pos Dir : Type} (surfs : List (Surface Pos Dir)) (r : Pos)
    (u : Dir) (os : Int) (acc : ℚ × Int) (t : Int) (h1 : ¬(t ≥ OP_UNION))
    (h2 : ¬(tokenDistance surfs r u os t < acc.1)) :
    distanceStep surfs r u os acc t = acc := by
  simp only [distanceStep]
  rw [if_neg h1, if_neg h2]

theorem distance_fold_inv {Pos Dir : Type} (surfs : List (Surface Pos Dir)) (r : Pos)
    (u : Dir) (os : Int) :
    ∀ (ts : List Int) (acc : ℚ × Int), 0 < acc.1 →
      (∀ t ∈ ts, t < OP_UNION → 0 < tokenDistance surfs r u os t) →
      (ts.foldl (distanceStep surfs r u os) acc).1 ≤ acc.1 ∧
      0 < (ts.foldl (distanceStep surfs r u os) acc).1 ∧
      ∀ t ∈ ts, t < OP_UNION →
        (1 - FP_PRECISION) * (ts.foldl (distanceStep surfs r u os) acc).1 ≤
          tokenDistance surfs r u os t := by
  intro ts
  induction ts with
  | nil =>
    intro acc hpos _
    refine ⟨le_refl _, hpos, ?_⟩
    intro t ht
    exact absurd ht (List.not_mem_nil t)
  | cons t ts ih =>
    intro acc hpos hdist
    rw [List.foldl_cons]
    by_cases hop : t ≥ OP_UNION
    · rw [distanceStep_op surfs r u os acc t hop]
      have hrec := ih acc hpos (fun x hx h => hdist x (by simp [hx]) h)
      refine ⟨hrec.1, hrec.2.1, ?_⟩
      intro x hx hxop
      rcases List.mem_cons.mp hx with rfl | hx'
      · exact absurd hxop (by omega)
      · exact hrec.2.2 x hx' hxop
    · have htop : t < OP_UNION := by omega
      have hd0 : 0 < tokenDistance surfs r u os t := hdist t (by simp) htop
      by_cases hlt : tokenDistance surfs r u os t < acc.1
      · by_cases htol : |tokenDistance surfs r u os t - acc.1| / acc.1 ≥ FP_PRECISION
        · rw [distanceStep_accept surfs r u os acc t hop hlt htol]
          have hrec := ih (tokenDistance surfs r u os t, -t) hd0
            (fun x hx h => hdist x (by simp [hx]) h)
          refine ⟨le_trans hrec.1 (le_of_lt hlt), hrec.2.1, ?_⟩
          intro x hx hxop
          rcases List.mem_cons.mp hx with rfl | hx'
          · have hexp : (1 - FP_PRECISION) *
                (ts.foldl (distanceStep surfs r u os) (tokenDistance surfs r u os x, -x)).1 =
                (ts.foldl (distanceStep surfs r u os) (tokenDistance surfs r u os x, -x)).1 -
                FP_PRECISION *
                (ts.foldl (distanceStep surfs r u os) (tokenDistance surfs r u os x, -x)).1 := by
              ring
            have hnn : 0 ≤ FP_PRECISION *
                (ts.foldl (distanceStep surfs r u os) (tokenDistance surfs r u os x, -x)).1 :=
              mul_nonneg (le_of_lt FP_PRECISION_pos) (le_of_lt hrec.2.1)
            linarith [hrec.1]
          · exact hrec.2.2 x hx' hxop
        · rw [distanceStep_keep_tol surfs r u os acc t hop hlt htol]
          have hrec := ih acc hpos (fun x hx h => hdist x (by simp [hx]) h)
          refine ⟨hrec.1, hrec.2.1, ?_⟩
          intro x hx hxop
          rcases List.mem_cons.mp hx with rfl | hx'
          · push_neg at htol
            have habs : |tokenDistance surfs r u os x - acc.1| =
                acc.1 - tokenDistance surfs r u os x := by
              rw [abs_of_neg (by linarith), neg_sub]
            rw [habs] at htol
            have h1 : acc.1 - tokenDistance surfs r u os x < FP_PRECISION * acc.1 :=
              (div_lt_iff₀ hpos).mp htol
            have h3 : (1 - FP_PRECISION) * (ts.foldl (distanceStep surfs r u os) acc).1 ≤
                (1 - FP_PRECISION) * acc.1 :=
              mul_le_mul_of_nonneg_left hrec.1 (by linarith [FP_PRECISION_lt_one])
            have hexp : (1 - FP_PRECISION) * acc.1 = acc.1 - FP_PRECISION * acc.1 := by ring
            linarith
          · exact hrec.2.2 x hx' hxop
      · rw [distanceStep_keep_ge surfs r u os acc t hop hlt]
        have hrec := ih acc hpos (fun x hx h => hdist x (by simp [hx]) h)
        refine ⟨hrec.1, hrec.2.1, ?_⟩
        intro x hx hxop
        rcases List.mem_cons.mp hx with rfl | hx'
        · push_neg at hlt
          have hexp : (1 - FP_PRECISION) * (ts.foldl (distanceStep surfs r u os) acc).1 =
              (ts.foldl (distanceStep surfs r u os) acc).1 -
              FP_PRECISION * (ts.foldl (distanceStep surfs r u os) acc).1 := by
            ring
          have hnn : 0 ≤ FP_PRECISION * (ts.foldl (distanceStep surfs r u os) acc).1 :=
            mul_nonneg (le_of_lt FP_PRECISION_pos) (le_of_lt hrec.2.1)
          linarith [hrec.1]
        · exact hrec.2.2 x hx' hxop

/-- C6 (amended): with the `FP_PRECISION` tie-breaking rule the returned
minimum distance need not be below every operand distance; instead it is
bounded by `INFTY` and satisfies
`(1 - ε_fp) · min_dist ≤ Sᵢ.distance(r, u, ·)` for every operand, every
rejection being within relative tolerance `ε_fp` of the running minimum. -/
theorem C6_distance_tolerance_bound :
    ∀ (Pos Dir : Type) (surfs : List (Surface Pos Dir)) (c : Cell) (r : Pos) (u : Dir)
      (on_surface : Int),
      (∀ t ∈ c.rpn, t < OP_UNION → 0 < tokenDistance surfs r u on_surface t) →
      (c.distance surfs r u on_surface).1 ≤ INFTY ∧
      ∀ t ∈ c.rpn, t < OP_UNION →
        (1 - FP_PRECISION) * (c.distance surfs r u on_surface).1 ≤
          tokenDistance surfs r u on_surface t := by
  intro Pos Dir surfs c r u os hpos
  have h := distance_fold_inv surfs r u os c.rpn (INFTY, INT32_MAX) INFTY_pos hpos
  exact ⟨h.1, h.2.2⟩

/-- Surfaces of the C6 counterexample: surface 1 at distance 5, surface 2
closer by half the relative tolerance. -/
def cexSurfs : List (Surface Unit Unit) :=
  [⟨fun _ _ => true, fun _ _ _ => 5⟩, ⟨fun _ _ => true, fun _ _ _ => 5 - 5 / (2 * 10 ^ 14)⟩]

/-- Cell of the C6 counterexample, region `1 2`. -/
def cexCell : Cell := { rpn := [1, 2, OP_INTERSECTION] }

theorem cex_tokenDistance_one : tokenDistance cexSurfs () () 0 1 = 5 := rfl

theorem cex_tokenDistance_two :
    tokenDistance cexSurfs () () 0 2 = 5 - 5 / (2 * 10 ^ 14) := rfl

theorem cex_distance_eval : Cell.distance cexSurfs cexCell () () 0 = (5, -1) := by
  have step1 : distanceStep cexSurfs () () 0 (INFTY, INT32_MAX) 1 = (5, -1) := by
    have h := distanceStep_accept cexSurfs () () 0 (INFTY, INT32_MAX) 1
      (by norm_num [OP_UNION])
      (by rw [cex_tokenDistance_one]; show (5 : ℚ) < INFTY; rw [INFTY]; norm_num)
      (by rw [cex_tokenDistance_one]
          show |5 - INFTY| / INFTY ≥ FP_PRECISION
          rw [abs_of_neg (by rw [INFTY]; norm_num), neg_sub, INFTY, FP_PRECISION]
          norm_num)
    rw [h, cex_tokenDistance_one]
  have step2 : distanceStep cexSurfs () () 0 (5, -1) 2 = (5, -1) := by
    apply distanceStep_keep_tol cexSurfs () () 0 (5, -1) 2 (by norm_num [OP_UNION])
    · rw [cex_tokenDistance_two]
      show (5 - 5 / (2 * 10 ^ 14) : ℚ) < 5
      norm_num
    · rw [cex_tokenDistance_two]
      show ¬(|5 - 5 / (2 * 10 ^ 14) - 5| / 5 ≥ FP_PRECISION)
      rw [show (5 - 5 / (2 * 10 ^ 14) : ℚ) - 5 = -(5 / (2 * 10 ^ 14)) by ring, abs_neg,
        abs_of_nonneg (by norm_num), FP_PRECISION]
      norm_num
  have step3 : distanceStep cexSurfs () () 0 (5, -1) OP_INTERSECTION = (5, -1) :=
    distanceStep_op cexSurfs () () 0 (5, -1) OP_INTERSECTION (by norm_num [OP_UNION, OP_INTERSECTION])
  show cexCell.rpn.foldl (distanceStep cexSurfs () () 0) (INFTY, INT32_MAX) = (5, -1)
  rw [show cexCell.rpn = [1, 2, OP_INTERSECTION] from rfl, List.foldl_cons, step1,
    List.foldl_cons, step2, List.foldl_cons, step3, List.foldl_nil]

/-- Counterexample to C6 as stated: on the cell with region `1 2` where
surface 1 reports distance 5 and surface 2 reports a distance smaller by
half the relative tolerance, `Cell::distance` returns 5, which exceeds
surface 2's distance — the claimed bound
`distance(r,u) ≤ Sᵢ.distance(r,u,false)` fails (and so does equality at
the argmin). -/
theorem C6_distance_counterexample :
    ¬((Cell.distance cexSurfs cexCell () () 0).1 ≤
      (cexSurfs.getD 1 defaultSurface).distance () () false) := by
  rw [cex_distance_eval]
  show ¬((5 : ℚ) ≤ 5 - 5 / (2 * 10 ^ 14))
  norm_num

/-- Witness for the amended C6 on a concrete one-surface cell. -/
theorem C6_distance_tolerance_bound_witness :
    (Cell.distance cexSurfs cexCell () () 0).1 ≤ INFTY ∧
    ∀ t ∈ cexCell.rpn, t < OP_UNION →
      (1 - FP_PRECISION) * (Cell.distance cexSurfs cexCell () () 0).1 ≤
        tokenDistance cexSurfs () () 0 t :=
  C6_distance_tolerance_bound Unit Unit cexSurfs cexCell () () 0 (by
    intro t ht hop
    have : t = 1 ∨ t = 2 ∨ t = OP_INTERSECTION := by simpa [cexCell] using ht
    rcases this with rfl | rfl | rfl
    · rw [cex_tokenDistance_one]; norm_num
    · rw [cex_tokenDistance_two]; norm_num
    · exact absurd hop (by norm_num [OP_UNION, OP_INTERSECTION]))

theorem foldl_skip_ops {Pos Dir : Type} (surfs : List (Surface Pos Dir)) (r : Pos) (u : Dir)
    (os : Int) : ∀ (pre : List Int) (acc : ℚ × Int), (∀ t ∈ pre, t ≥ OP_UNION) →
      pre.foldl (distanceStep surfs r u os) acc = acc := by
  intro pre
  induction pre with
  | nil => intro acc _; rfl
  | cons t ts ih =>
    intro acc hops
    rw [List.foldl_cons, distanceStep_op surfs r u os acc t (hops t (by simp))]
    exact ih acc (fun x hx => hops x (by simp [hx]))

theorem foldl_stay_within {Pos Dir : Type} (surfs : List (Surface Pos Dir)) (r : Pos) (u : Dir)
    (os : Int) : ∀ (post : List Int) (d1 : ℚ) (i : Int), 0 < d1 →
      (∀ t ∈ post, t < OP_UNION →
        |tokenDistance surfs r u os t - d1| / d1 < FP_PRECISION) →
      post.foldl (distanceStep surfs r u os) (d1, i) = (d1, i) := by
  intro post
  induction post with
  | nil => intro d1 i _ _; rfl
  | cons t ts ih =>
    intro d1 i hd1 hwithin
    rw [List.foldl_cons]
    by_cases hop : t ≥ OP_UNION
    · rw [distanceStep_op surfs r u os (d1, i) t hop]
      exact ih d1 i hd1 (fun x hx h => hwithin x (by simp [hx]) h)
    · have htop : t < OP_UNION := by omega
      by_cases hlt : tokenDistance surfs r u os t < (d1, i).1
      · rw [distanceStep_keep_tol surfs r u os (d1, i) t hop hlt
          (not_le.mpr (hwithin t (by simp) htop))]
        exact ih d1 i hd1 (fun x hx h => hwithin x (by simp [hx]) h)
      · rw [distanceStep_keep_ge surfs r u os (d1, i) t hop hlt]
        exact ih d1 i hd1 (fun x hx h => hwithin x (by simp [hx]) h)

theorem foldl_no_reduction {Pos Dir : Type} (surfs : List (Surface Pos Dir)) (r : Pos) (u : Dir)
    (os : Int) : ∀ ts : List Int,
      (∀ t ∈ ts, t < OP_UNION →
        ¬(tokenDistance surfs r u os t < INFTY ∧
          |tokenDistance surfs r u os t - INFTY| / INFTY ≥ FP_PRECISION)) →
      ts.foldl (distanceStep surfs r u os) (INFTY, INT32_MAX) = (INFTY, INT32_MAX) := by
  intro ts
  induction ts with
  | nil => intro _; rfl
  | cons t rest ih =>
    intro hno
    rw [List.foldl_cons]
    by_cases hop : t ≥ OP_UNION
    · rw [distanceStep_op surfs r u os (INFTY, INT32_MAX) t hop]
      exact ih (fun x hx h => hno x (by simp [hx]) h)
    · have htop : t < OP_UNION := by omega
      have hfail := hno t (by simp) htop
      by_cases hlt : tokenDistance surfs r u os t < (INFTY, INT32_MAX).1
      · have htol : ¬(|tokenDistance surfs r u os t - (INFTY, INT32_MAX).1| /
            (INFTY, INT32_MAX).1 ≥ FP_PRECISION) := fun h => hfail ⟨hlt, h⟩
        rw [distanceStep_keep_tol surfs r u os (INFTY, INT32_MAX) t hop hlt htol]
        exact ih (fun x hx h => hno x (by simp [hx]) h)
      · rw [distanceStep_keep_ge surfs r u os (INFTY, INT32_MAX) t hop hlt]
        exact ih (fun x hx h => hno x (by simp [hx]) h)

/-- C7: the `Cell::distance` selection discipline.  (i) A step displaces the
running pair only when the operand distance is strictly smaller and the
relative difference reaches `FP_PRECISION`; (ii) when every later operand is
within relative tolerance `ε_fp` of the first operand's distance, the first
operand in postfix order wins: the result is its distance paired with its
negated token; (iii) if no operand produces a finite reduction the initial
pair `(INFTY, INT32_MAX)` is returned unchanged. -/
theorem C7_distance_tie_break :
    (∀ (Pos Dir : Type) (surfs : List (Surface Pos Dir)) (r : Pos) (u : Dir) (os : Int)
        (acc : ℚ × Int) (token : Int), distanceStep surfs r u os acc token ≠ acc →
        token < OP_UNION ∧ tokenDistance surfs r u os token < acc.1 ∧
        |tokenDistance surfs r u os token - acc.1| / acc.1 ≥ FP_PRECISION) ∧
    (∀ (Pos Dir : Type) (surfs : List (Surface Pos Dir)) (c : Cell) (r : Pos) (u : Dir)
        (os : Int) (pre : List Int) (t1 : Int) (post : List Int),
        c.rpn = pre ++ t1 :: post → (∀ t ∈ pre, t ≥ OP_UNION) → t1 < OP_UNION →
        0 < tokenDistance surfs r u os t1 →
        tokenDistance surfs r u os t1 < INFTY →
        |tokenDistance surfs r u os t1 - INFTY| / INFTY ≥ FP_PRECISION →
        (∀ t ∈ post, t < OP_UNION →
          |tokenDistance surfs r u os t - tokenDistance surfs r u os t1| /
            tokenDistance surfs r u os t1 < FP_PRECISION) →
        c.distance surfs r u os = (tokenDistance surfs r u os t1, -t1)) ∧
    (∀ (Pos Dir : Type) (surfs : List (Surface Pos Dir)) (c : Cell) (r : Pos) (u : Dir)
        (os : Int),
        (∀ t ∈ c.rpn, t < OP_UNION →
          ¬(tokenDistance surfs r u os t < INFTY ∧
            |tokenDistance surfs r u os t - INFTY| / INFTY ≥ FP_PRECISION)) →
        c.distance surfs r u os = (INFTY, INT32_MAX)) := by
  refine ⟨?_, ?_, ?_⟩
  · intro Pos Dir surfs r u os acc token hne
    by_cases hop : token ≥ OP_UNION
    · exact absurd (distanceStep_op surfs r u os acc token hop) hne
    · by_cases hlt : tokenDistance surfs r u os token < acc.1
      · by_cases htol : |tokenDistance surfs r u os token - acc.1| / acc.1 ≥ FP_PRECISION
        · exact ⟨by omega, hlt, htol⟩
        · exact absurd (distanceStep_keep_tol surfs r u os acc token hop hlt htol) hne
      · exact absurd (distanceStep_keep_ge surfs r u os acc token hop hlt) hne
  · intro Pos Dir surfs c r u os pre t1 post hrpn hpre ht1 hd1 hlt htol hwithin
    show c.rpn.foldl (distanceStep surfs r u os) (INFTY, INT32_MAX) = _
    rw [hrpn, List.foldl_append, foldl_skip_ops surfs r u os pre (INFTY, INT32_MAX) hpre,
      List.foldl_cons,
      distanceStep_accept surfs r u os (INFTY, INT32_MAX) t1 (by omega) hlt htol,
      foldl_stay_within surfs r u os post (tokenDistance surfs r u os t1) (-t1) hd1 hwithin]
  · intro Pos Dir surfs c r u os hno
    exact foldl_no_reduction surfs r u os c.rpn hno

/-- Witness for C7: on a one-operand cell whose surface reports distance 7,
the returned pair is that first operand's distance with its negated token. -/
theorem C7_distance_tie_break_witness :
    Cell.distance [(⟨fun _ _ => true, fun _ _ _ => 7⟩ : Surface Unit Unit)]
      { rpn := [1] } () () 0 = (7, -1) := by
  have e1 : tokenDistance [(⟨fun _ _ => true, fun _ _ _ => 7⟩ : Surface Unit Unit)]
      () () 0 1 = 7 := rfl
  have h := C7_distance_tie_break.2.1 Unit Unit
    [(⟨fun _ _ => true, fun _ _ _ => 7⟩ : Surface Unit Unit)] { rpn := [1] } () () 0
    [] 1 [] rfl (by simp) (by norm_num [OP_UNION])
    (by rw [e1]; norm_num)
    (by rw [e1, INFTY]; norm_num)
    (by rw [e1]
        rw [abs_of_neg (by rw [INFTY]; norm_num), neg_sub, INFTY, FP_PRECISION]
        norm_num)
    (by intro t ht; exact absurd ht (List.not_mem_nil t))
  rw [h, e1]

/-- Modelled from the spec: the `MATERIAL` fill-kind code (header not under
`src/`). -/
def FILL_MATERIAL : Int := 1

/-- Modelled from the spec: the `UNIVERSE` fill-kind code. -/
def FILL_UNIVERSE : Int := 2

/-- Modelled from the spec: the `LATTICE` fill-kind code. -/
def FILL_LATTICE : Int := 3

/-- Modelled from the spec: the `void` material sentinel. -/
def MATERIAL_VOID : Int := -1

/-- Modelled from the spec: the recoverable `OutOfBounds` error code of the
administrative API (a nonzero value; `0` is success). -/
def OPENMC_E_OUT_OF_BOUNDS : Int := -3

/-- The process-wide state touched by the C-API functions: `global_cells`
and the size of `global_materials`. -/
structure GlobalState where
  cells : List Cell := []
  n_materials : Nat := 0
deriving DecidableEq, Repr

/-- `openmc_cell_get_fill` from `src/cell.cpp`: for a 1-based in-range cell
index return `(0, type, indices)` where `indices` is the material list of a
material-filled cell and the singleton fill target otherwise; out of range,
return the `OutOfBounds` code (output parameters modelled as zero/empty). -/
def openmc_cell_get_fill (st : GlobalState) (index : Int) : Int × Int × List Int :=
  if 1 ≤ index ∧ index ≤ (st.cells.length : Int) then
    if (st.cells.getD (index - 1).toNat default).type = FILL_MATERIAL then
      (0, (st.cells.getD (index - 1).toNat default).type,
        (st.cells.getD (index - 1).toNat default).material)
    else
      (0, (st.cells.getD (index - 1).toNat default).type,
        [(st.cells.getD (index - 1).toNat default).fill])
  else (OPENMC_E_OUT_OF_BOUNDS, 0, [])

/-- The material-translation loop of `openmc_cell_set_fill`: each 1-based
material index is translated to 0-based (`MATERIAL_VOID` passes through);
an out-of-range index aborts with failure, leaving exactly the
already-translated prefix in the cell's material list. -/
def matLoop (nmat : Nat) : List Int → List Int → List Int × Bool
  | [], acc => (acc, true)
  | i :: rest, acc =>
    if i = MATERIAL_VOID then matLoop nmat rest (acc ++ [MATERIAL_VOID])
    else if 1 ≤ i ∧ i ≤ (nmat : Int) then matLoop nmat rest (acc ++ [i - 1])
    else (acc, false)

/-- Replace cell `i` of the global cell vector. -/
def setCell (st : GlobalState) (i : Nat) (c : Cell) : GlobalState :=
  { st with cells := st.cells.set i c }

/-- `openmc_cell_set_fill` from `src/cell.cpp`.  For `FILL_MATERIAL` the
cell's type is set and its material list rebuilt by `matLoop` (on an invalid
material index the function returns `OutOfBounds` with the partial rebuild
already applied, as in the source); other types only set the type code. -/
def openmc_cell_set_fill (st : GlobalState) (index : Int) (ftype : Int)
    (indices : List Int) : GlobalState × Int :=
  if 1 ≤ index ∧ index ≤ (st.cells.length : Int) then
    if ftype = FILL_MATERIAL then
      (setCell st (index - 1).toNat
        { st.cells.getD (index - 1).toNat default with
          type := FILL_MATERIAL,
          material := (matLoop st.n_materials indices []).1 },
       if (matLoop st.n_materials indices []).2 then 0 else OPENMC_E_OUT_OF_BOUNDS)
    else if ftype = FILL_UNIVERSE then
      (setCell st (index - 1).toNat
        { st.cells.getD (index - 1).toNat default with type := FILL_UNIVERSE }, 0)
    else
      (setCell st (index - 1).toNat
        { st.cells.getD (index - 1).toNat default with type := FILL_LATTICE }, 0)
  else (st, OPENMC_E_OUT_OF_BOUNDS)

/-- `openmc_cell_set_temperature` from `src/cell.cpp`.  The stored value
`sqrt(K_BOLTZMANN * T)` is abstracted by the parameter `sqrtKT_of` (its
square root is irrational; no claim depends on the stored value).  A null
`instance` pointer is `none`; a present instance is bounds-checked 0-based
against the cell's `sqrtkT` vector. -/
def openmc_cell_set_temperature (sqrtKT_of : ℚ → ℚ) (st : GlobalState) (index : Int)
    (T : ℚ) (inst : Option Int) : GlobalState × Int :=
  if 1 ≤ index ∧ index ≤ (st.cells.length : Int) then
    match inst with
    | some j =>
      if 0 ≤ j ∧ j < (((st.cells.getD (index - 1).toNat default).sqrtkT.length : Nat) : Int) then
        (setCell st (index - 1).toNat
          { st.cells.getD (index - 1).toNat default with
            sqrtkT := (st.cells.getD (index - 1).toNat default).sqrtkT.set
              j.toNat (sqrtKT_of T) }, 0)
      else (st, OPENMC_E_OUT_OF_BOUNDS)
    | none =>
      (setCell st (index - 1).toNat
        { st.cells.getD (index - 1).toNat default with
          sqrtkT := (st.cells.getD (index - 1).toNat default).sqrtkT.map
            (fun _ => sqrtKT_of T) }, 0)
  else (st, OPENMC_E_OUT_OF_BOUNDS)

theorem getD_set_self_cell (l : List Cell) (i : Nat) (c : Cell) (h : i < l.length) :
    (l.set i c).getD i default = c := by
  simp [List.getD, List.getElem?_set_self', h]

/-- Concrete admin state shared by the examples below: one material-filled
cell holding translated material 0 with a single temperature instance, and
one global material. -/
def adminState : GlobalState :=
  { cells := [{ type := FILL_MATERIAL, material := [0], sqrtkT := [1] }], n_materials := 1 }

/-- Counterexample to C4 as stated: `openmc_cell_set_fill` failing on an
invalid material index returns `OutOfBounds` but has already modified the
cell — the material list `[0]` was cleared before the failing translation,
so the resulting state differs from the original. -/
theorem C4_partial_modification_counterexample :
    (openmc_cell_set_fill adminState 1 FILL_MATERIAL [5]).2 = OPENMC_E_OUT_OF_BOUNDS ∧
    (openmc_cell_set_fill adminState 1 FILL_MATERIAL [5]).1 ≠ adminState := by
  decide

/-- C4 (amended): a failing `set_temperature` never modifies the state, and
a `set_fill` failing on an invalid cell index never modifies the state; but
a `set_fill` that fails on an invalid material index leaves the target cell
with fill kind `MATERIAL` and the partially rebuilt material list produced
by the translation loop. -/
theorem set_temperature_result (f : ℚ → ℚ) (st : GlobalState) (index : Int) (T : ℚ)
    (inst : Option Int) :
    (openmc_cell_set_temperature f st index T inst).2 = 0 ∨
      openmc_cell_set_temperature f st index T inst = (st, OPENMC_E_OUT_OF_BOUNDS) := by
  rw [openmc_cell_set_temperature.eq_def]
  split
  · split
    · split
      · left
        rfl
      · right
        rfl
    · left
      rfl
  · right
    rfl

theorem C4_admin_error_state :
    (∀ (f : ℚ → ℚ) (st : GlobalState) (index : Int) (T : ℚ) (inst : Option Int),
      (openmc_cell_set_temperature f st index T inst).2 ≠ 0 →
      (openmc_cell_set_temperature f st index T inst).1 = st) ∧
    (∀ (st : GlobalState) (index ftype : Int) (indices : List Int),
      ¬(1 ≤ index ∧ index ≤ (st.cells.length : Int)) →
      openmc_cell_set_fill st index ftype indices = (st, OPENMC_E_OUT_OF_BOUNDS)) ∧
    (∀ (st : GlobalState) (index : Int) (indices : List Int),
      1 ≤ index → index ≤ (st.cells.length : Int) →
      ((openmc_cell_set_fill st index FILL_MATERIAL indices).1.cells.getD
          (index - 1).toNat default).type = FILL_MATERIAL ∧
      ((openmc_cell_set_fill st index FILL_MATERIAL indices).1.cells.getD
          (index - 1).toNat default).material = (matLoop st.n_materials indices []).1) := by
  refine ⟨?_, ?_, ?_⟩
  · intro f st index T inst h
    rcases set_temperature_result f st index T inst with h0 | heq
    · exact absurd h0 h
    · rw [heq]
  · intro st index ftype indices h
    rw [openmc_cell_set_fill, if_neg h]
  · intro st index indices h1 h2
    have hidx : 1 ≤ index ∧ index ≤ (st.cells.length : Int) := ⟨h1, h2⟩
    have hbound : (index - 1).toNat < st.cells.length := by omega
    rw [openmc_cell_set_fill, if_pos hidx, if_pos rfl]
    dsimp only [setCell]
    rw [getD_set_self_cell _ _ _ hbound]
    exact ⟨rfl, rfl⟩

/-- Witness for the amended C4: a failing call with cell index 0 leaves the
state untouched. -/
theorem C4_admin_error_state_witness :
    openmc_cell_set_fill adminState 0 FILL_MATERIAL [] = (adminState, OPENMC_E_OUT_OF_BOUNDS) :=
  C4_admin_error_state.2.1 adminState 0 FILL_MATERIAL [] (by decide)

/-- Counterexample to C5 as stated: switching the material-filled cell to
`FILL_UNIVERSE` succeeds but the material list is NOT cleared — it still
holds `[0]` after the transition. -/
theorem C5_stale_material_counterexample :
    (openmc_cell_set_fill adminState 1 FILL_UNIVERSE []).2 = 0 ∧
    ((openmc_cell_set_fill adminState 1 FILL_UNIVERSE []).1.cells.getD 0 default).material
      = [0] := by
  decide

/-- C5 (amended): a successful `set_fill` switching a cell to `UNIVERSE` or
`LATTICE` changes only the fill-kind code; the material list is left
untouched (the source clears it only when the new kind is `MATERIAL`). -/
theorem C5_set_fill_keeps_material :
    ∀ (st : GlobalState) (index : Int) (indices : List Int), 1 ≤ index →
      index ≤ (st.cells.length : Int) →
      ((openmc_cell_set_fill st index FILL_UNIVERSE indices).2 = 0 ∧
       ((openmc_cell_set_fill st index FILL_UNIVERSE indices).1.cells.getD
          (index - 1).toNat default).material =
         (st.cells.getD (index - 1).toNat default).material ∧
       ((openmc_cell_set_fill st index FILL_UNIVERSE indices).1.cells.getD
          (index - 1).toNat default).type = FILL_UNIVERSE) ∧
      ((openmc_cell_set_fill st index FILL_LATTICE indices).2 = 0 ∧
       ((openmc_cell_set_fill st index FILL_LATTICE indices).1.cells.getD
          (index - 1).toNat default).material =
         (st.cells.getD (index - 1).toNat default).material ∧
       ((openmc_cell_set_fill st index FILL_LATTICE indices).1.cells.getD
          (index - 1).toNat default).type = FILL_LATTICE) := by
  intro st index indices h1 h2
  have hidx : 1 ≤ index ∧ index ≤ (st.cells.length : Int) := ⟨h1, h2⟩
  have hbound : (index - 1).toNat < st.cells.length := by omega
  have hne1 : ¬(FILL_UNIVERSE = FILL_MATERIAL) := by norm_num [FILL_UNIVERSE, FILL_MATERIAL]
  have hne2 : ¬(FILL_LATTICE = FILL_MATERIAL) := by norm_num [FILL_LATTICE, FILL_MATERIAL]
  have hne3 : ¬(FILL_LATTICE = FILL_UNIVERSE) := by norm_num [FILL_LATTICE, FILL_UNIVERSE]
  constructor
  · rw [openmc_cell_set_fill, if_pos hidx, if_neg hne1, if_pos rfl]
    dsimp only [setCell]
    rw [getD_set_self_cell _ _ _ hbound]
    exact ⟨rfl, rfl, rfl⟩
  · rw [openmc_cell_set_fill, if_pos hidx, if_neg hne2, if_neg hne3]
    dsimp only [setCell]
    rw [getD_set_self_cell _ _ _ hbound]
    exact ⟨rfl, rfl, rfl⟩

/-- Witness for the amended C5 on the concrete admin state. -/
theorem C5_set_fill_keeps_material_witness :
    ((openmc_cell_set_fill adminState 1 FILL_UNIVERSE []).1.cells.getD 0 default).material =
      (adminState.cells.getD 0 default).material := by
  have h := C5_set_fill_keeps_material adminState 1 [] (by decide) (by decide)
  simpa using h.1.2.1

/-- Counterexample to C9 as stated: the `instance` argument of
`openmc_cell_set_temperature` is NOT 1-based.  On a cell with exactly one
temperature instance, instance `1` (the only valid 1-based value) fails
with `OutOfBounds`, while instance `0` (outside any 1-based range)
succeeds — the check is `0 ≤ instance < sqrtkT.size()` with no
translation. -/
theorem C9_instance_counterexample :
    (openmc_cell_set_temperature id adminState 1 300 (some 1)).2 = OPENMC_E_OUT_OF_BOUNDS ∧
    (openmc_cell_set_temperature id adminState 1 300 (some 0)).2 = 0 := by
  decide

/-- C9 (amended): the cell index of `get_fill`, `set_fill` and
`set_temperature` and the material indices of `set_fill` are 1-based and
translated to 0-based (out of range fails with `OutOfBounds`), but the
`instance` argument of `set_temperature` is 0-based and used untranslated,
succeeding exactly when `0 ≤ instance < sqrtkT.length`. -/
theorem C9_admin_indexing :
    (∀ (st : GlobalState) (index : Int),
      ((openmc_cell_get_fill st index).1 = 0 ↔
        (1 ≤ index ∧ index ≤ (st.cells.length : Int))) ∧
      (¬(1 ≤ index ∧ index ≤ (st.cells.length : Int)) →
        (openmc_cell_get_fill st index).1 = OPENMC_E_OUT_OF_BOUNDS)) ∧
    (∀ (st : GlobalState) (index : Int), 1 ≤ index → index ≤ (st.cells.length : Int) →
      (openmc_cell_get_fill st index).2.1 = (st.cells.getD (index - 1).toNat default).type) ∧
    (∀ (st : GlobalState) (index ftype : Int) (indices : List Int),
      ¬(1 ≤ index ∧ index ≤ (st.cells.length : Int)) →
      openmc_cell_set_fill st index ftype indices = (st, OPENMC_E_OUT_OF_BOUNDS)) ∧
    (∀ (st : GlobalState) (index m : Int), 1 ≤ index → index ≤ (st.cells.length : Int) →
      1 ≤ m → m ≤ (st.n_materials : Int) →
      (openmc_cell_set_fill st index FILL_MATERIAL [m]).2 = 0 ∧
      ((openmc_cell_set_fill st index FILL_MATERIAL [m]).1.cells.getD
          (index - 1).toNat default).material = [m - 1]) ∧
    (∀ (st : GlobalState) (index m : Int), 1 ≤ index → index ≤ (st.cells.length : Int) →
      m ≠ MATERIAL_VOID → ¬(1 ≤ m ∧ m ≤ (st.n_materials : Int)) →
      (openmc_cell_set_fill st index FILL_MATERIAL [m]).2 = OPENMC_E_OUT_OF_BOUNDS) ∧
    (∀ (f : ℚ → ℚ) (st : GlobalState) (index : Int) (T : ℚ) (j : Int),
      1 ≤ index → index ≤ (st.cells.length : Int) →
      ((openmc_cell_set_temperature f st index T (some j)).2 = 0 ↔
        (0 ≤ j ∧ j < (((st.cells.getD (index - 1).toNat default).sqrtkT.length : Nat) : Int)))) ∧
    (∀ (f : ℚ → ℚ) (st : GlobalState) (index : Int) (T : ℚ) (inst : Option Int),
      ¬(1 ≤ index ∧ index ≤ (st.cells.length : Int)) →
      openmc_cell_set_temperature f st index T inst = (st, OPENMC_E_OUT_OF_BOUNDS)) := by
  have hOOB : OPENMC_E_OUT_OF_BOUNDS ≠ 0 := by norm_num [OPENMC_E_OUT_OF_BOUNDS]
  refine ⟨?_, ?_, ?_, ?_, ?_, ?_, ?_⟩
  · intro st index
    by_cases hidx : 1 ≤ index ∧ index ≤ (st.cells.length : Int)
    · have h0 : (openmc_cell_get_fill st index).1 = 0 := by
        rw [openmc_cell_get_fill, if_pos hidx]
        by_cases htype : (st.cells.getD (index - 1).toNat default).type = FILL_MATERIAL
        · rw [if_pos htype]
        · rw [if_neg htype]
      exact ⟨iff_of_true h0 hidx, fun hc => absurd hidx hc⟩
    · have hE : (openmc_cell_get_fill st index).1 = OPENMC_E_OUT_OF_BOUNDS := by
        rw [openmc_cell_get_fill, if_neg hidx]
      refine ⟨iff_of_false ?_ hidx, fun _ => hE⟩
      rw [hE]
      exact hOOB
  · intro st index h1 h2
    rw [openmc_cell_get_fill, if_pos ⟨h1, h2⟩]
    by_cases htype : (st.cells.getD (index - 1).toNat default).type = FILL_MATERIAL
    · rw [if_pos htype]
    · rw [if_neg htype]
  · intro st index ftype indices h
    rw [openmc_cell_set_fill, if_neg h]
  · intro st index m h1 h2 hm1 hm2
    have hidx : 1 ≤ index ∧ index ≤ (st.cells.length : Int) := ⟨h1, h2⟩
    have hbound : (index - 1).toNat < st.cells.length := by omega
    have hvoid : ¬(m = MATERIAL_VOID) := by
      rw [MATERIAL_VOID]
      omega
    have hmat : matLoop st.n_materials [m] [] = ([m - 1], true) := by
      rw [matLoop, if_neg hvoid, if_pos ⟨hm1, hm2⟩, matLoop]
      rfl
    rw [openmc_cell_set_fill, if_pos hidx, if_pos rfl]
    dsimp only [setCell]
    rw [getD_set_self_cell _ _ _ hbound, hmat]
    exact ⟨rfl, rfl⟩
  · intro st index m h1 h2 hvoid hrange
    have hidx : 1 ≤ index ∧ index ≤ (st.cells.length : Int) := ⟨h1, h2⟩
    have hmat : matLoop st.n_materials [m] [] = ([], false) := by
      rw [matLoop, if_neg hvoid, if_neg hrange]
    rw [openmc_cell_set_fill, if_pos hidx, if_pos rfl, hmat]
    rfl
  · intro f st index T j h1 h2
    have hidx : 1 ≤ index ∧ index ≤ (st.cells.length : Int) := ⟨h1, h2⟩
    by_cases hj : 0 ≤ j ∧
        j < (((st.cells.getD (index - 1).toNat default).sqrtkT.length : Nat) : Int)
    · refine iff_of_true ?_ hj
      rw [openmc_cell_set_temperature, if_pos hidx]
      rw [if_pos hj]
    · refine iff_of_false ?_ hj
      rw [openmc_cell_set_temperature, if_pos hidx, if_neg hj]
      exact hOOB
  · intro f st index T inst h
    rw [openmc_cell_set_temperature.eq_def, if_neg h]

/-- Witness for the amended C9: setting material 1 on the concrete state
succeeds and stores the translated 0-based index. -/
theorem C9_admin_indexing_witness :
    (openmc_cell_set_fill adminState 1 FILL_MATERIAL [1]).2 = 0 ∧
    ((openmc_cell_set_fill adminState 1 FILL_MATERIAL [1]).1.cells.getD 0 default).material
      = [0] := by
  have h := C9_admin_indexing.2.2.2.1 adminState 1 1 (by decide) (by decide) (by decide)
    (by decide)
  simpa using h

end OpenMCCell
